import Mathlib

/-!
# Verification of the epitech-calendar-sync core

Shallow embedding of the repository's core logic:

* `src/utils/date.ts` — `parseEpitechDate`, `toIcsDateTime` (JS `Date` values are
  modelled as `Option Int`: `some t` is an epoch-second count of the local civil
  time, `none` is an Invalid Date; the host timezone offset is modelled as zero,
  which is sound because every claim compares or renders dates that were built
  through the same constructor).
* `src/background/epitech-api.ts` — `formatRoomCode`, `cleanActivityTitle`,
  `formatDuration`, `getRealTimeSlot`, `transformEvent`.
* `src/services/ics-generator.ts` — `escapeIcsText`, `foldLine`,
  `generateVEvent`, `generateIcsContent` (the JS exception thrown by
  `ensureDate` on an invalid date is modelled with `Except`; the wall clock read
  by `new Date()` is an explicit argument).
* `src/services/google-calendar.ts` — the reconciliation pass of
  `syncToGoogleCalendar`, with the remote calendar as an explicit list of
  events and the network outcomes of list/create/update/delete supplied by an
  oracle.
* `src/background/sync-manager.ts` — `performSync`, with the module-global
  `isSyncing` flag as an explicit state argument and all collaborators
  (authentication check, fetch, per-service sync) supplied by an environment.
-/

namespace EpitechSync

/-! ## JS dates

`new Date(y, m, d, h, mi, s)` normalizes out-of-range fields.  We model the
construction as a strictly increasing flattening of the civil tuple into epoch
seconds (days via the standard civil-calendar algorithm), matching ECMAScript's
`MakeDay`/`MakeTime` with a zero local offset. -/

/-- Days from 1970-01-01 to the first day of civil month `(y, m)`, `m ∈ [1,12]`. -/
def daysFromCivilMonth (y m : Int) : Int :=
  let y' := if m ≤ 2 then y - 1 else y
  let era := y'.fdiv 400
  let yoe := y' - era * 400
  let mp := (m + 9).emod 12
  let doy := (153 * mp + 2) / 5
  let doe := yoe * 365 + yoe / 4 - yoe / 100 + doy
  era * 146097 + doe - 719468

/-- `new Date(y, mo - 1, d, h, mi, s)` as epoch seconds (`mo` is 1-based here,
matching the `month - 1` adjustment done at the call site in the source).
Out-of-range months and days are normalized the way ECMAScript does. -/
def mkDate (y mo d h mi s : Int) : Int :=
  let months := y * 12 + (mo - 1)
  let ny := months.fdiv 12
  let nm := months.emod 12 + 1
  (daysFromCivilMonth ny nm + (d - 1)) * 86400 + h * 3600 + mi * 60 + s

/-- Inverse of the day flattening: civil `(y, m, d)` of a day count. -/
def civilFromDays (z : Int) : Int × Int × Int :=
  let z' := z + 719468
  let era := z'.fdiv 146097
  let doe := z' - era * 146097
  let yoe := (doe - doe / 1460 + doe / 36524 - doe / 146096) / 365
  let y := yoe + era * 400
  let doy := doe - (365 * yoe + yoe / 4 - yoe / 100)
  let mp := (5 * doy + 2) / 153
  let d := doy - (153 * mp + 2) / 5 + 1
  let m := if mp < 10 then mp + 3 else mp - 9
  (if m ≤ 2 then y + 1 else y, m, d)

/-- Civil fields `(y, m, d, h, mi, s)` of an epoch-second count (the
`getFullYear`/`getMonth`/… accessors, with the zero-offset convention). -/
def civilFields (t : Int) : Int × Int × Int × Int × Int × Int :=
  let days := t.fdiv 86400
  let rem := t.emod 86400
  let (y, m, d) := civilFromDays days
  (y, m, d, rem / 3600, (rem / 60).emod 60, rem.emod 60)

/-- `n.toString().padStart(2, '0')`. -/
def padStart2 (s : String) : String :=
  String.mk (List.replicate (2 - s.length) '0') ++ s

/-- `toIcsDateTime` from `src/utils/date.ts`: local-time `YYYYMMDDTHHMMSS`. -/
def toIcsDateTime (t : Int) : String :=
  let (y, m, d, h, mi, s) := civilFields t
  toString y ++ padStart2 (toString m) ++ padStart2 (toString d) ++ "T" ++
    padStart2 (toString h) ++ padStart2 (toString mi) ++ padStart2 (toString s)

/-- `ensureDate` from `src/utils/date.ts`, restricted to the `Date` case used by
the codec: an Invalid Date (`none`) raises, a valid one is returned. -/
def ensureDate : Option Int → Except String Int
  | some t => .ok t
  | none => .error "Invalid Date object"

/-! ## JS string primitives

`String.prototype.split`, `replace(/…/g, …)`, `trim` and `Number` are modelled
by structural recursion over the character list (every separator/pattern the
source uses is non-empty). -/

/-- Scan for `split` with a non-empty separator `sep`.  Structural on the
`fuel` argument so it computes by iota reduction; every step consumes at least
one character, so `fuel = length` never runs out. -/
def splitAux (sep : List Char) : List Char → List Char → Nat → List (List Char)
  | [], acc, _ => [acc.reverse]
  | c :: rest, acc, 0 => [acc.reverse ++ (c :: rest)]
  | c :: rest, acc, fuel + 1 =>
    if sep.isPrefixOf (c :: rest) then
      acc.reverse :: splitAux sep ((c :: rest).drop sep.length) [] fuel
    else splitAux sep rest (c :: acc) fuel

/-- `s.split(sep)` (for the empty separator, JS splits into characters). -/
def jsSplit (sep : String) (s : String) : List String :=
  match sep.data with
  | [] => s.data.map (fun c => String.mk [c])
  | sc :: st => (splitAux (sc :: st) s.data [] s.data.length).map String.mk

/-- Scan for global `replace` with a non-empty pattern; fueled like `splitAux`. -/
def replaceAux (pat rep : List Char) : List Char → Nat → List Char
  | [], _ => []
  | l, 0 => l
  | c :: rest, fuel + 1 =>
    if pat.isPrefixOf (c :: rest) then
      rep ++ replaceAux pat rep ((c :: rest).drop pat.length) fuel
    else c :: replaceAux pat rep rest fuel

/-- `s.replace(/pat/g, rep)` for a literal non-empty pattern. -/
def jsReplace (pat rep s : String) : String :=
  match pat.data with
  | [] => s
  | pc :: pt => String.mk (replaceAux (pc :: pt) rep.data s.data s.data.length)

/-- `s.trim()`. -/
def jsTrim (s : String) : String :=
  String.mk (((s.data.dropWhile Char.isWhitespace).reverse.dropWhile Char.isWhitespace).reverse)

/-- Value of a non-empty all-digit run. -/
def digitsVal : List Char → Option Nat
  | [] => none
  | ds => go ds 0
where
  go : List Char → Nat → Option Nat
    | [], acc => some acc
    | c :: rest, acc =>
      if c.isDigit then go rest (acc * 10 + (c.toNat - 48)) else none

/-! ## Parsing Epitech date strings -/

/-- `Number(s)` on a component string pulled out of a date; an unparseable
component is `none` (JS `NaN`, which poisons the constructed Date). -/
def jsNumber? (s : String) : Option Int :=
  match s.data with
  | '-' :: ds => (digitsVal ds).map (fun n => -(n : Int))
  | '+' :: ds => (digitsVal ds).map (fun n => (n : Int))
  | ds => (digitsVal ds).map (fun n => (n : Int))

/-- Destructured element `i` of `parts`, converted with `Number` (a missing
element is `undefined`, i.e. `NaN`, i.e. `none`). -/
def numAt (parts : List String) (i : Nat) : Option Int :=
  (parts.get? i).bind jsNumber?

/-- `parseEpitechDate` from `src/utils/date.ts`: parse `"YYYY-MM-DD HH:MM:SS"`
as a local-time Date, `none` being an Invalid Date. -/
def parseEpitechDate (dateStr : String) : Option Int := do
  let sp := jsSplit " " dateStr
  let datePart := sp.headD ""
  let timeRaw := (sp.get? 1).getD ""
  let timeStr := if timeRaw = "" then "00:00:00" else timeRaw
  let dp := jsSplit "-" datePart
  let tp := jsSplit ":" timeStr
  let y ← numAt dp 0
  let mo ← numAt dp 1
  let d ← numAt dp 2
  let h ← numAt tp 0
  let mi ← numAt tp 1
  let s ← numAt tp 2
  pure (mkDate y mo d h mi s)

/-! ## Data model (`src/types/epitech.ts`) -/

/-- A loosely typed JS value, for the `is_rdv` field (`boolean | string` in the
declared type, with numeric `1`/`0` also tolerated by the code). -/
inductive JsPrim where
  | str (s : String)
  | boolv (b : Bool)
  | num (n : Int)
deriving Repr, DecidableEq, BEq

structure ProfInst where
  type : String
  login : String
  title : String
  picture : String
deriving Repr, DecidableEq

structure Room where
  code : String
  type : String
  seats : Int
deriving Repr, DecidableEq

/-- `EpitechRawEvent`.  `event_registered : string | false` is modelled with
`none` for the literal `false`; nullable fields are `Option`. -/
structure EpitechRawEvent where
  scolaryear : String
  acti_title : String
  start : String
  end_ : String
  room : Option Room
  codemodule : String
  codeinstance : String
  codeacti : String
  codeevent : String
  semester : Int
  instance_location : String
  titlemodule : String
  prof_inst : Option (List ProfInst)
  registered : Bool
  event_registered : Option String
  rdv_group_registered : Option String
  rdv_indiv_registered : Option String
  module_registered : Bool
  past : Bool
  allow_register : Bool
  allow_token : Bool
  nb_hours : Option String
  nb_group : Int
  nb_max_students_projet : Option Int
  is_rdv : JsPrim
  type_code : Option String
  type_title : Option String
deriving Repr, DecidableEq

structure ModuleRef where
  code : String
  instance_ : String
  title : String
deriving Repr, DecidableEq

structure ActivityRef where
  code : String
  title : String
deriving Repr, DecidableEq

/-- `EpitechEvent`, the canonical event.  Dates are JS `Date`s (see above). -/
structure EpitechEvent where
  id : String
  title : String
  description : String
  location : String
  startDate : Option Int
  endDate : Option Int
  module : ModuleRef
  activity : ActivityRef
  eventCode : String
  semester : Int
  instructors : List String
  isRegistered : Bool
  isPast : Bool
deriving Repr, DecidableEq

/-! ## Event normalizer (`src/background/epitech-api.ts`) -/

/-- `formatRoomCode`: `"FR/PAR/KB2-Pasteur/Bureau-APE" → "KB2 Pasteur: Bureau APE"`. -/
def formatRoomCode (code : String) : String :=
  let parts := jsSplit "/" code
  let relevantParts := parts.drop 2
  if relevantParts = [] then code
  else
    let building := jsReplace "-" " " (relevantParts.headD "")
    let room := " ".intercalate ((relevantParts.drop 1).map (fun p => jsReplace "-" " " p))
    if room ≠ "" then building ++ ": " ++ room else building

/-- `cleanActivityTitle`: drop `[OBLIGATOIRE]` tags and surrounding whitespace.
(The JS regex is case-insensitive; the model handles the uppercase form the
intranet emits.) -/
def cleanActivityTitle (title : String) : String :=
  jsTrim (" ".intercalate ((jsSplit "[OBLIGATOIRE]" title).map (fun s => jsTrim s)))

/-- `formatDuration` (minutes → `"3h05"`, `"2h"`, `"45min"`); `Math.floor` is
`fdiv`, JS `%` is truncated `tmod`. -/
def formatDuration (minutes : Int) : String :=
  let hours := minutes.fdiv 60
  let mins := minutes.tmod 60
  if hours > 0 ∧ mins > 0 then toString hours ++ "h" ++ padStart2 (toString mins)
  else if hours > 0 then toString hours ++ "h"
  else toString mins ++ "min"

/-- JS `a || b` on nullable strings (`null` and `""` are falsy). -/
def jsOrStr : Option String → Option String → Option String
  | some a, b => if a = "" then b else some a
  | none, b => b

/-- JS truthiness of a nullable string (`if (slot)`). -/
def truthyStr : Option String → Option String
  | some s => if s = "" then none else some s
  | none => none

/-- `is_rdv === '1' || is_rdv === true || is_rdv === 1`. -/
def isRdvEvent (raw : EpitechRawEvent) : Bool :=
  raw.is_rdv == .str "1" || raw.is_rdv == .boolv true || raw.is_rdv == .num 1

structure TimeSlot where
  start : Option Int
  end_ : Option Int
  isPersonalSlot : Option Bool
  duration : Option String
deriving Repr, DecidableEq

/-- `Math.round(durationMs / 60000)` with the duration expressed in seconds. -/
def roundMinutes (seconds : Int) : Int := (seconds + 30).fdiv 60

/-- `getRealTimeSlot`: for RDV events prefer the individual then the group
reserved slot (a packed `"start|end"` string); otherwise the nominal window.
(A duration computed from an Invalid Date is NaN noise in JS; it is modelled as
absent, which no claim observes.) -/
def getRealTimeSlot (raw : EpitechRawEvent) : TimeSlot :=
  if isRdvEvent raw then
    match truthyStr (jsOrStr raw.rdv_indiv_registered raw.rdv_group_registered) with
    | some slot =>
      let parts := jsSplit "|" slot
      let realStart := parts.headD ""
      let realEnd := (parts.get? 1).getD ""
      let startDate := parseEpitechDate realStart
      let endDate := parseEpitechDate realEnd
      let duration := match startDate, endDate with
        | some s, some e => some (formatDuration (roundMinutes (e - s)))
        | _, _ => none
      { start := startDate, end_ := endDate, isPersonalSlot := some true, duration }
    | none =>
      { start := parseEpitechDate raw.start, end_ := parseEpitechDate raw.end_,
        isPersonalSlot := some false, duration := raw.nb_hours }
  else
    { start := parseEpitechDate raw.start, end_ := parseEpitechDate raw.end_,
      isPersonalSlot := none, duration := raw.nb_hours }

/-- `p.title || p.login`. -/
def profName (p : ProfInst) : String := if p.title = "" then p.login else p.title

/-- `transformEvent`: normalize one raw record into a canonical event. -/
def transformEvent (raw : EpitechRawEvent) (pfx : String) : EpitechEvent :=
  let id := "epitech-" ++ raw.codeacti ++ "-" ++ raw.codeevent
  let activityTitle := cleanActivityTitle raw.acti_title
  let timeSlot := getRealTimeSlot raw
  let isRegistered := raw.event_registered == some "registered" ||
    raw.event_registered == some "present" ||
    raw.event_registered == some "absent" ||
    raw.registered == true
  let descriptionParts : List String :=
    ["Module: " ++ raw.titlemodule, "Activity: " ++ activityTitle]
    ++ (match raw.prof_inst with
        | some profs =>
          if profs.length > 0 then
            ["Instructor(s): " ++ ", ".intercalate (profs.map profName)]
          else []
        | none => [])
    ++ (match truthyStr timeSlot.duration with
        | some d => ["Duration: " ++ d]
        | none => [])
    ++ (match timeSlot.isPersonalSlot with
        | some true => ["Slot: Personal slot reserved"]
        | some false => ["Slot: NOT RESERVED - Book your slot!"]
        | none => [])
    ++ ["Registered: " ++ (if isRegistered then "Yes" else "No"), ""]
    ++ ["Intra: https://intra.epitech.eu/module/" ++ raw.scolaryear ++ "/" ++
        raw.codemodule ++ "/" ++ raw.codeinstance ++ "/" ++ raw.codeacti]
  let location := match raw.room with
    | some r => formatRoomCode r.code
    | none => if raw.instance_location ≠ "" then raw.instance_location else ""
  let title := if timeSlot.isPersonalSlot == some false then
      pfx ++ "[CRÉNEAU NON RÉSERVÉ] " ++ activityTitle
    else pfx ++ activityTitle
  { id := id
    title := title
    description := "\n".intercalate descriptionParts
    location := location
    startDate := timeSlot.start
    endDate := timeSlot.end_
    module := { code := raw.codemodule, instance_ := raw.codeinstance, title := raw.titlemodule }
    activity := { code := raw.codeacti, title := activityTitle }
    eventCode := raw.codeevent
    semester := raw.semester
    instructors := (raw.prof_inst.getD []).map profName
    isRegistered := isRegistered
    isPast := raw.past }

/-! ## ICS codec (`src/services/ics-generator.ts`) -/

/-- `escapeIcsText`: backslash, semicolon, comma, newline — in that order. -/
def escapeIcsText (text : String) : String :=
  jsReplace "\n" "\\n" (jsReplace "," "\\," (jsReplace ";" "\\;" (jsReplace "\\" "\\\\" text)))

/-- Fueled form of the continuation-chunk loop (each step consumes at least
one character, so `fuel = length` never runs out). -/
def contChunksAux : List Char → Nat → List (List Char)
  | [], _ => []
  | l, 0 => [l]
  | c :: rest, fuel + 1 => (' ' :: (c :: rest).take 74) :: contChunksAux ((c :: rest).drop 74) fuel

/-- The continuation chunks of `foldLine`'s `while` loop: each physical line is
a space followed by up to 74 characters of content. -/
def contChunks (remaining : List Char) : List (List Char) :=
  contChunksAux remaining remaining.length

/-- The physical lines `foldLine` emits for one content line (JS `substring`
counts UTF-16 units; the model counts characters, which agrees on the BMP). -/
def foldParts (line : List Char) : List (List Char) :=
  if line.length ≤ 75 then [line]
  else line.take 75 :: contChunks (line.drop 75)

/-- `foldLine`: RFC 5545 line folding, physical lines joined with CRLF. -/
def foldLine (line : String) : String :=
  "\r\n".intercalate ((foldParts line.data).map String.mk)

/-- `generateUid`: the canonical id suffixed with the fixed domain tag. -/
def generateUid (event : EpitechEvent) : String := event.id ++ "@epitech.eu"

/-- The content lines of one `VEVENT`, before folding.  `now` is the wall-clock
`Date` read for `DTSTAMP`; an invalid start or end date raises (via
`ensureDate` inside `toIcsDateTime`). -/
def generateVEventLines (now : Int) (event : EpitechEvent) : Except String (List String) := do
  let stamp := toIcsDateTime now
  let s ← ensureDate event.startDate
  let e ← ensureDate event.endDate
  pure <|
    ["BEGIN:VEVENT",
     "UID:" ++ generateUid event,
     "DTSTAMP:" ++ stamp,
     "DTSTART;TZID=Europe/Paris:" ++ toIcsDateTime s,
     "DTEND;TZID=Europe/Paris:" ++ toIcsDateTime e,
     "SUMMARY:" ++ escapeIcsText event.title]
    ++ (if event.description ≠ "" then ["DESCRIPTION:" ++ escapeIcsText event.description] else [])
    ++ (if event.location ≠ "" then ["LOCATION:" ++ escapeIcsText event.location] else [])
    ++ ["CATEGORIES:EPITECH," ++ escapeIcsText event.module.title,
        "STATUS:" ++ (if event.isRegistered then "CONFIRMED" else "TENTATIVE"),
        "TRANSP:OPAQUE",
        "SEQUENCE:0",
        "END:VEVENT"]

/-- `generateVEvent`: the folded lines of one `VEVENT`, joined with CRLF. -/
def generateVEvent (now : Int) (event : EpitechEvent) : Except String String :=
  (generateVEventLines now event).map (fun ls => "\r\n".intercalate (ls.map foldLine))

/-- `getTimezoneVtimezone` from `src/utils/date.ts`. -/
def getTimezoneVtimezone : String :=
  "\r\n".intercalate
    ["BEGIN:VTIMEZONE", "TZID:Europe/Paris",
     "BEGIN:DAYLIGHT", "TZOFFSETFROM:+0100", "TZOFFSETTO:+0200", "TZNAME:CEST",
     "DTSTART:19700329T020000", "RRULE:FREQ=YEARLY;BYMONTH=3;BYDAY=-1SU", "END:DAYLIGHT",
     "BEGIN:STANDARD", "TZOFFSETFROM:+0200", "TZOFFSETTO:+0100", "TZNAME:CET",
     "DTSTART:19701025T030000", "RRULE:FREQ=YEARLY;BYMONTH=10;BYDAY=-1SU", "END:STANDARD",
     "END:VTIMEZONE"]

/-- `generateIcsContent`: full calendar document; `now` is the wall clock read
once per `VEVENT` by the source (all reads within one call see the same value
at second granularity, which is what the model's single argument captures). -/
def generateIcsContent (now : Int) (events : List EpitechEvent) : Except String String := do
  let ves ← events.mapM (generateVEvent now)
  pure <| "\r\n".intercalate <|
    ["BEGIN:VCALENDAR", "VERSION:2.0", "PRODID:-//Epitech Calendar Sync//EN",
     "CALSCALE:GREGORIAN", "METHOD:PUBLISH", "X-WR-CALNAME:Epitech Calendar",
     "X-WR-TIMEZONE:Europe/Paris", getTimezoneVtimezone]
    ++ ves ++ ["END:VCALENDAR"]

/-! ## Reconciliation engine (`src/services/google-calendar.ts`)

The remote calendar is a list of remote events; each carries the service's own
event id (`gid`, the `id` Google assigns, modelled as a counter-issued `Nat`),
the `epitechId` stored in its private extended properties, and the payload last
written (`toGoogleEvent`'s serialization carries exactly the canonical event, so
the payload is modelled as the canonical event itself).  Network outcomes of
the per-event create/update/delete calls and of the initial listing are
supplied by a `RemoteOracle` (`none` = success, `some msg` = the call throws
with message `msg`). -/

structure GEvent where
  gid : Nat
  epitechId : String
  body : EpitechEvent
deriving Repr, DecidableEq

abbrev EventMap := List (String × GEvent)

/-- `Map.set`: overwrite in place if the key exists, else append. -/
def mapInsert (m : EventMap) (k : String) (v : GEvent) : EventMap :=
  if m.any (fun p => p.1 == k) then m.map (fun p => if p.1 == k then (k, v) else p)
  else m ++ [(k, v)]

/-- `getExistingEvents`: the `epitechId → remote event` map, built in listing
order (pagination accumulates all pages; the model sees the whole list). -/
def getExistingEvents (cal : List GEvent) : EventMap :=
  cal.foldl (fun m g => mapInsert m g.epitechId g) []

def hasKey (m : EventMap) (k : String) : Bool := m.any (fun p => p.1 == k)

def lookupKey (m : EventMap) (k : String) : Option GEvent :=
  (m.find? (fun p => p.1 == k)).map (fun p => p.2)

structure RemoteOracle where
  listFailure : Option String
  createFailure : String → Option String
  updateFailure : String → Option String
  deleteFailure : String → Option String

def noFailures : RemoteOracle :=
  { listFailure := none, createFailure := fun _ => none,
    updateFailure := fun _ => none, deleteFailure := fun _ => none }

structure ReconcileState where
  cal : List GEvent
  next : Nat
  created : Nat
  updated : Nat
  errors : List String
deriving Repr

/-- The `PUT` of a full replacement body at a given remote event id. -/
def updateBody (cal : List GEvent) (gid : Nat) (ev : EpitechEvent) : List GEvent :=
  cal.map (fun g => if g.gid == gid then { gid := g.gid, epitechId := ev.id, body := ev } else g)

/-- The create-or-update loop of `syncToGoogleCalendar`: for each canonical
event, look its id up in the listing snapshot `existing`; update in place if
present, create (tagged with the id) if absent; a per-event throw appends
`"Event <id>: <message>"` and moves on. -/
def createUpdate (orc : RemoteOracle) (existing : EventMap) :
    ReconcileState → List EpitechEvent → ReconcileState
  | st, [] => st
  | st, ev :: rest =>
    let st' := match lookupKey existing ev.id with
      | some g =>
        match orc.updateFailure ev.id with
        | some msg => { st with errors := st.errors ++ ["Event " ++ ev.id ++ ": " ++ msg] }
        | none => { st with cal := updateBody st.cal g.gid ev, updated := st.updated + 1 }
      | none =>
        match orc.createFailure ev.id with
        | some msg => { st with errors := st.errors ++ ["Event " ++ ev.id ++ ": " ++ msg] }
        | none => { st with cal := st.cal ++ [⟨st.next, ev.id, ev⟩],
                            next := st.next + 1, created := st.created + 1 }
    createUpdate orc existing st' rest

/-- The deletion loop: every listed tagged event whose id was not processed is
deleted (by its remote event id); a per-event throw appends
`"Delete <id>: <message>"` and moves on. -/
def deletePhase (orc : RemoteOracle) (processed : List String) :
    List GEvent × Nat × List String → EventMap → List GEvent × Nat × List String
  | acc, [] => acc
  | (cal, del, errs), (k, g) :: rest =>
    let acc' := if processed.contains k then (cal, del, errs)
      else match orc.deleteFailure k with
        | some msg => (cal, del, errs ++ ["Delete " ++ k ++ ": " ++ msg])
        | none => (cal.filter (fun x => x.gid != g.gid), del + 1, errs)
    deletePhase orc processed acc' rest

structure SyncResultDetails where
  created : Nat
  updated : Nat
  deleted : Nat
  errors : List String
deriving Repr, DecidableEq

/-- The reconciliation pass of `syncToGoogleCalendar` (after the connectivity
check): list the tagged events, run the create/update loop against the
snapshot, then the deletion loop; a listing failure aborts the pass with a
single error.  Returns the result, the new remote calendar state, and the
remote id counter.  (`syncToOutlookCalendar` implements the same algorithm.) -/
def syncToGoogleCalendar (orc : RemoteOracle) (cal0 : List GEvent) (nextGid : Nat)
    (events : List EpitechEvent) : SyncResultDetails × List GEvent × Nat :=
  match orc.listFailure with
  | some msg => ({ created := 0, updated := 0, deleted := 0, errors := [msg] }, cal0, nextGid)
  | none =>
    let existing := getExistingEvents cal0
    let p1 := createUpdate orc existing ⟨cal0, nextGid, 0, 0, []⟩ events
    let (cal2, del, errs) := deletePhase orc (events.map (fun ev => ev.id)) (p1.cal, 0, p1.errors) existing
    ({ created := p1.created, updated := p1.updated, deleted := del, errors := errs }, cal2, p1.next)

/-! ## Sync orchestrator (`src/background/sync-manager.ts`)

`performSync` with the module-global `isSyncing` flag as an explicit input and
output, the collaborators as an environment, and the side effects it issues
recorded as a trace (empty trace = no network call, no storage write). -/

structure SyncResult where
  success : Bool
  timestamp : Int
  eventsProcessed : Nat
  eventsCreated : Nat
  eventsUpdated : Nat
  eventsDeleted : Nat
  errors : List String
  details : List String
deriving Repr, DecidableEq

inductive SyncEffect where
  | updateStatus
  | authCheck
  | fetchEvents
  | cacheWrite
  | googleSync
  | outlookSync
  | markCompleted
  | notify
deriving Repr, DecidableEq

structure SyncEnv where
  now : Int
  authOk : Bool
  fetched : Except String (List EpitechEvent)
  googleEnabled : Bool
  googleConnected : Bool
  googleResult : Except String SyncResultDetails
  outlookEnabled : Bool
  outlookConnected : Bool
  outlookResult : Except String SyncResultDetails
  notificationsEnabled : Bool

def emptySyncResult (now : Int) (success : Bool) (errors : List String) : SyncResult :=
  { success := success, timestamp := now, eventsProcessed := 0, eventsCreated := 0,
    eventsUpdated := 0, eventsDeleted := 0, errors := errors, details := [] }

/-- One remote-service branch of the aggregation loop. -/
def addServiceResult (tag : String) (r : SyncResult) (outcome : Except String SyncResultDetails) :
    SyncResult :=
  match outcome with
  | .ok d =>
    { r with eventsCreated := r.eventsCreated + d.created,
             eventsUpdated := r.eventsUpdated + d.updated,
             eventsDeleted := r.eventsDeleted + d.deleted,
             errors := r.errors ++ d.errors.map (fun e => tag ++ ": " ++ e) }
  | .error e => { r with errors := r.errors ++ [tag ++ " Calendar sync failed: " ++ e] }

/-- `performSync`: if the guard is set, resolve immediately with the
"already in progress" result and no effects; otherwise set the guard, run the
body under try/catch, and clear the guard in the `finally` step.  Returns the
result, the new guard value, and the effect trace. -/
def performSync (env : SyncEnv) (manual : Bool) (isSyncing : Bool) :
    SyncResult × Bool × List SyncEffect :=
  if isSyncing then
    (emptySyncResult env.now false ["Sync already in progress"], isSyncing, [])
  else
    let tryOut : SyncResult × List SyncEffect :=
      if env.authOk = false then
        let msg := "Not authenticated to Epitech intranet. Please visit intra.epitech.eu and log in."
        (emptySyncResult env.now false [msg],
         [.authCheck, .updateStatus] ++ (if env.notificationsEnabled then [.notify] else []))
      else
        match env.fetched with
        | .error e =>
          (emptySyncResult env.now false [e],
           [.authCheck, .updateStatus, .fetchEvents, .updateStatus]
             ++ (if env.notificationsEnabled then [.notify] else []))
        | .ok events =>
          let r0 := { emptySyncResult env.now true [] with eventsProcessed := events.length }
          let (r1, e1) := if env.googleEnabled && env.googleConnected then
              (addServiceResult "Google" r0 env.googleResult, [SyncEffect.googleSync])
            else (r0, [])
          let (r2, e2) := if env.outlookEnabled && env.outlookConnected then
              (addServiceResult "Outlook" r1 env.outlookResult, [SyncEffect.outlookSync])
            else (r1, [])
          let r3 := { r2 with success := r2.errors.isEmpty }
          ({ r3 with details := [] },
           [.authCheck, .updateStatus, .fetchEvents, .cacheWrite] ++ e1 ++ e2
             ++ [.markCompleted]
             ++ (if env.notificationsEnabled && manual then [.notify] else []))
    (tryOut.1, false, [.updateStatus] ++ tryOut.2 ++ [.updateStatus])

/-! ## Test fixtures -/

/-- A well-formed canonical event used to populate concrete scenarios. -/
def sampleEvent : EpitechEvent :=
  { id := "epitech-acti-1-event-1", title := "T", description := "", location := "",
    startDate := some 1740823200, endDate := some 1740826800,
    module := ⟨"B-PRO-100", "PAR-1", "Mod"⟩, activity := ⟨"acti-1", "Act"⟩,
    eventCode := "event-1", semester := 1, instructors := [], isRegistered := true,
    isPast := false }

/-- Re-key a canonical event; a list of events with prescribed ids is exactly a
list of `withId`-normalized events. -/
def withId (i : String) (ev : EpitechEvent) : EpitechEvent := { ev with id := i }

/-- A well-formed raw planning record (a regular, registered activity). -/
def sampleRaw : EpitechRawEvent :=
  { scolaryear := "2024", acti_title := "Defense", start := "2025-03-01 09:00:00",
    end_ := "2025-03-01 12:00:00", room := none, codemodule := "B-PRO-100",
    codeinstance := "PAR-1", codeacti := "acti-1", codeevent := "event-1", semester := 5,
    instance_location := "FR/PAR", titlemodule := "Module", prof_inst := none,
    registered := true, event_registered := some "registered", rdv_group_registered := none,
    rdv_indiv_registered := none, module_registered := true, past := false,
    allow_register := false, allow_token := false, nb_hours := some "3h", nb_group := 0,
    nb_max_students_projet := none, is_rdv := .boolv false, type_code := none,
    type_title := none }

/-- An RDV record with an individual reservation slot. -/
def rdvRaw : EpitechRawEvent :=
  { sampleRaw with
    is_rdv := JsPrim.str "1"
    rdv_indiv_registered := some "2025-03-01 10:00:00|2025-03-01 11:00:00" }

/-- An RDV record with no reservation at all. -/
def rdvNoSlotRaw : EpitechRawEvent := { sampleRaw with is_rdv := JsPrim.str "1" }

/-! ## Claims about the reconciliation engine -/

/-- **C1.**  With the remote calendar holding tagged mirrored events `A, B, C`
(arbitrary bodies) and the canonical set being `B, C, D` (arbitrary events with
those ids), one reconciliation pass with no network failures creates exactly
the events absent from the remote map (`D`), updates exactly those present in
both (`B`, `C`), deletes exactly the tagged remote events whose id is not in
the canonical set (`A`) — counts `created = 1, updated = 2, deleted = 1`, no
errors — and afterwards the tagged remote set corresponds 1:1, id for id, with
the canonical set. -/
theorem reconcile_diff_correct (a b c evB evC evD : EpitechEvent) :
    syncToGoogleCalendar noFailures
        [⟨1, "A", a⟩, ⟨2, "B", b⟩, ⟨3, "C", c⟩] 4
        [withId "B" evB, withId "C" evC, withId "D" evD]
      = ({ created := 1, updated := 2, deleted := 1, errors := [] },
         [⟨2, "B", withId "B" evB⟩, ⟨3, "C", withId "C" evC⟩, ⟨4, "D", withId "D" evD⟩], 5)
    ∧ (syncToGoogleCalendar noFailures
        [⟨1, "A", a⟩, ⟨2, "B", b⟩, ⟨3, "C", c⟩] 4
        [withId "B" evB, withId "C" evC, withId "D" evD]).2.1.map (fun g => g.epitechId)
      = [withId "B" evB, withId "C" evC, withId "D" evD].map (fun ev => ev.id) :=
  ⟨rfl, rfl⟩

/-- **C3.**  Same scenario as C1 but the update call for `B` throws with
message `msg`: the engine still executes `C`'s update, `D`'s create and `A`'s
delete (counts `created = 1, updated = 1, deleted = 1`, final state has `B`'s
remote event untouched and `C`, `D` reconciled), appends exactly the single
entry `"Event B: <msg>"` to the error list, and returns a result normally (the
model is a total function; the source catches each per-event throw). -/
theorem reconcile_partial_failure (a b c evB evC evD : EpitechEvent) (msg : String) :
    syncToGoogleCalendar
        { noFailures with updateFailure := fun i => if i == "B" then some msg else none }
        [⟨1, "A", a⟩, ⟨2, "B", b⟩, ⟨3, "C", c⟩] 4
        [withId "B" evB, withId "C" evC, withId "D" evD]
      = ({ created := 1, updated := 1, deleted := 1, errors := ["Event B: " ++ msg] },
         [⟨2, "B", b⟩, ⟨3, "C", withId "C" evC⟩, ⟨4, "D", withId "D" evD⟩], 5) :=
  rfl

/-! ## Claim about the orchestrator guard -/

/-- **C4.**  A sync request arriving while the guard is in the `syncing` state
resolves immediately with the "already in progress" result — all counts zero,
the single descriptive error — and performs no effect at all (no status write,
no fetch, no cache write, no remote-calendar call), leaving the guard to the
run that owns it; and an invocation that acquires the guard (entry state
`idle`) always hands the guard back in the `idle` state, whatever the
environment makes the body do (success or failure). -/
theorem performSync_guard (env : SyncEnv) (manual : Bool) :
    performSync env manual true
      = ({ success := false, timestamp := env.now, eventsProcessed := 0, eventsCreated := 0,
           eventsUpdated := 0, eventsDeleted := 0, errors := ["Sync already in progress"],
           details := [] }, true, [])
    ∧ (performSync env manual false).2.1 = false :=
  ⟨rfl, rfl⟩

/-! ## Claims about the normalizer -/

/-- Appending to a string that is not a prefix of `t` can never produce `t`. -/
theorem append_ne_of_not_prefix (a u t : String) (h : ¬ a.data <+: t.data) : a ++ u ≠ t := by
  intro he
  exact h ⟨u.data, by rw [← String.data_append, he]⟩

/-- **C6 (counterexample).**  The canonical id is *not* injective on the
(module, activity, event) compound key: two records that differ only in their
module code share the same activity and event codes and are mapped to the very
same id, because `transformEvent` derives the id from the activity and event
codes alone. -/
theorem event_id_ignores_module :
    ({ sampleRaw with codemodule := "B-INN-200" } : EpitechRawEvent).codemodule
        ≠ sampleRaw.codemodule
    ∧ ({ sampleRaw with codemodule := "B-INN-200" } : EpitechRawEvent).codeacti
        = sampleRaw.codeacti
    ∧ ({ sampleRaw with codemodule := "B-INN-200" } : EpitechRawEvent).codeevent
        = sampleRaw.codeevent
    ∧ (transformEvent { sampleRaw with codemodule := "B-INN-200" } "").id
        = (transformEvent sampleRaw "").id :=
  ⟨by decide, rfl, rfl, rfl⟩

/-- **C6 (amended).**  The canonical id is derived deterministically from the
activity and event codes only (`epitech-<codeacti>-<codeevent>`): any two
records agreeing on those two codes — whatever their module codes, other
fields, or the title prefix in force — receive the same id, and among records
sharing an activity code, distinct event codes yield distinct ids. -/
theorem event_id_deterministic (r1 r2 : EpitechRawEvent) (p1 p2 : String) :
    (transformEvent r1 p1).id = "epitech-" ++ r1.codeacti ++ "-" ++ r1.codeevent
    ∧ (r1.codeacti = r2.codeacti → r1.codeevent = r2.codeevent →
        (transformEvent r1 p1).id = (transformEvent r2 p2).id)
    ∧ (r1.codeacti = r2.codeacti → r1.codeevent ≠ r2.codeevent →
        (transformEvent r1 p1).id ≠ (transformEvent r2 p2).id) := by
  refine ⟨rfl, fun ha he => by rw [show (transformEvent r1 p1).id
      = "epitech-" ++ r1.codeacti ++ "-" ++ r1.codeevent from rfl, ha, he]; rfl, ?_⟩
  intro ha hne heq
  apply hne
  rw [show (transformEvent r1 p1).id = "epitech-" ++ r1.codeacti ++ "-" ++ r1.codeevent from rfl,
      show (transformEvent r2 p2).id = "epitech-" ++ r2.codeacti ++ "-" ++ r2.codeevent from rfl,
      ← ha] at heq
  have hd := congrArg String.data heq
  simp only [String.data_append, List.append_assoc] at hd
  exact congrArg String.mk
    (List.append_cancel_left (List.append_cancel_left (List.append_cancel_left hd)))

/-- Witness for `event_id_deterministic` at concrete records. -/
theorem event_id_deterministic_witness :
    (transformEvent sampleRaw "").id = (transformEvent { sampleRaw with titlemodule := "Other" } "").id
    ∧ (transformEvent sampleRaw "").id ≠ (transformEvent { sampleRaw with codeevent := "event-2" } "").id :=
  ⟨(event_id_deterministic sampleRaw { sampleRaw with titlemodule := "Other" } "" "").2.1 rfl rfl,
   (event_id_deterministic sampleRaw { sampleRaw with codeevent := "event-2" } "" "").2.2 rfl
     (by decide)⟩

/-- The canonical dates and title come from `getRealTimeSlot`. -/
theorem transformEvent_dates (raw : EpitechRawEvent) (pfx : String) :
    (transformEvent raw pfx).startDate = (getRealTimeSlot raw).start
    ∧ (transformEvent raw pfx).endDate = (getRealTimeSlot raw).end_ :=
  ⟨rfl, rfl⟩

/-- **C5.**  For an appointment-type (RDV) record: a present (non-empty)
individual reservation slot wins over whatever the group slot holds, the slot
string is split on `|` into the canonical `startDate` and `endDate`, and the
title carries no "not reserved" marker; when neither reservation is present
(the `indiv || group` chain is falsy) the canonical event keeps the nominal
window and the title is the prefix followed by the visible
`[CRÉNEAU NON RÉSERVÉ]` marker. -/
theorem rdv_slot_resolution (raw : EpitechRawEvent) (pfx : String)
    (hrdv : isRdvEvent raw = true) :
    (∀ s, raw.rdv_indiv_registered = some s → s ≠ "" →
        (transformEvent raw pfx).startDate = parseEpitechDate ((jsSplit "|" s).headD "")
        ∧ (transformEvent raw pfx).endDate = parseEpitechDate (((jsSplit "|" s).get? 1).getD "")
        ∧ (transformEvent raw pfx).title = pfx ++ cleanActivityTitle raw.acti_title)
    ∧ (truthyStr (jsOrStr raw.rdv_indiv_registered raw.rdv_group_registered) = none →
        (transformEvent raw pfx).startDate = parseEpitechDate raw.start
        ∧ (transformEvent raw pfx).endDate = parseEpitechDate raw.end_
        ∧ (transformEvent raw pfx).title
            = pfx ++ "[CRÉNEAU NON RÉSERVÉ] " ++ cleanActivityTitle raw.acti_title) := by
  constructor
  · intro s hs hne
    have hslot : truthyStr (jsOrStr raw.rdv_indiv_registered raw.rdv_group_registered) = some s := by
      rw [hs]; simp [jsOrStr, truthyStr, hne]
    have hts : getRealTimeSlot raw
        = { start := parseEpitechDate ((jsSplit "|" s).headD ""),
            end_ := parseEpitechDate (((jsSplit "|" s).get? 1).getD ""),
            isPersonalSlot := some true,
            duration := match parseEpitechDate ((jsSplit "|" s).headD ""),
                parseEpitechDate (((jsSplit "|" s).get? 1).getD "") with
              | some a, some b => some (formatDuration (roundMinutes (b - a)))
              | _, _ => none } := by
      unfold getRealTimeSlot
      rw [hrdv, hslot]
      rfl
    refine ⟨?_, ?_, ?_⟩
    · rw [(transformEvent_dates raw pfx).1, hts]
    · rw [(transformEvent_dates raw pfx).2, hts]
    · show (if (getRealTimeSlot raw).isPersonalSlot == some false then
          pfx ++ "[CRÉNEAU NON RÉSERVÉ] " ++ cleanActivityTitle raw.acti_title
        else pfx ++ cleanActivityTitle raw.acti_title) = _
      rw [hts]
      rfl
  · intro hnone
    have hts : getRealTimeSlot raw
        = { start := parseEpitechDate raw.start, end_ := parseEpitechDate raw.end_,
            isPersonalSlot := some false, duration := raw.nb_hours } := by
      unfold getRealTimeSlot
      rw [hrdv, hnone]
      rfl
    refine ⟨?_, ?_, ?_⟩
    · rw [(transformEvent_dates raw pfx).1, hts]
    · rw [(transformEvent_dates raw pfx).2, hts]
    · show (if (getRealTimeSlot raw).isPersonalSlot == some false then
          pfx ++ "[CRÉNEAU NON RÉSERVÉ] " ++ cleanActivityTitle raw.acti_title
        else pfx ++ cleanActivityTitle raw.acti_title) = _
      rw [hts]
      rfl

/-- Witness for `rdv_slot_resolution`: the spec's own example slot, and an RDV
record with no reservation. -/
theorem rdv_slot_resolution_witness :
    isRdvEvent rdvRaw = true
    ∧ ((transformEvent rdvRaw "[E] ").startDate
          = parseEpitechDate ((jsSplit "|" "2025-03-01 10:00:00|2025-03-01 11:00:00").headD "")
        ∧ (transformEvent rdvRaw "[E] ").endDate
          = parseEpitechDate (((jsSplit "|" "2025-03-01 10:00:00|2025-03-01 11:00:00").get? 1).getD "")
        ∧ (transformEvent rdvRaw "[E] ").title = "[E] " ++ cleanActivityTitle rdvRaw.acti_title)
    ∧ ((transformEvent rdvNoSlotRaw "[E] ").startDate = parseEpitechDate rdvNoSlotRaw.start
        ∧ (transformEvent rdvNoSlotRaw "[E] ").endDate = parseEpitechDate rdvNoSlotRaw.end_
        ∧ (transformEvent rdvNoSlotRaw "[E] ").title
            = "[E] " ++ "[CRÉNEAU NON RÉSERVÉ] " ++ cleanActivityTitle rdvNoSlotRaw.acti_title) :=
  ⟨by decide,
   (rdv_slot_resolution rdvRaw "[E] " (by decide)).1
     "2025-03-01 10:00:00|2025-03-01 11:00:00" rfl (by decide),
   (rdv_slot_resolution rdvNoSlotRaw "[E] " (by decide)).2 rfl⟩

/-- Comparison of two JS dates: both valid and in order. -/
def dateLe (a b : Option Int) : Bool :=
  match a, b with
  | some s, some e => decide (s ≤ e)
  | _, _ => false

/-- **C9.**  The normalizer preserves `startDate ≤ endDate`: for every raw
record whose relevant source time pairs are well formed — the nominal
`start`/`end` pair parses and is ordered, and, whenever a reservation slot is
in force, its two packed halves parse and are ordered — the canonical event
satisfies the invariant, whether the times come from the nominal window or
from a personal reservation slot (the normalizer never mixes the two
sources). -/
theorem canonical_start_le_end (raw : EpitechRawEvent) (pfx : String)
    (hNom : dateLe (parseEpitechDate raw.start) (parseEpitechDate raw.end_) = true)
    (hSlot : ∀ s, truthyStr (jsOrStr raw.rdv_indiv_registered raw.rdv_group_registered) = some s →
      dateLe (parseEpitechDate ((jsSplit "|" s).headD ""))
             (parseEpitechDate (((jsSplit "|" s).get? 1).getD "")) = true) :
    dateLe (transformEvent raw pfx).startDate (transformEvent raw pfx).endDate = true := by
  rw [(transformEvent_dates raw pfx).1, (transformEvent_dates raw pfx).2]
  unfold getRealTimeSlot
  by_cases hrdv : isRdvEvent raw = true
  · rw [hrdv]
    rcases hcase : truthyStr (jsOrStr raw.rdv_indiv_registered raw.rdv_group_registered) with _ | s
    · simpa using hNom
    · simpa using hSlot s hcase
  · rw [Bool.not_eq_true] at hrdv
    rw [hrdv]
    simpa using hNom

/-- Witness for `canonical_start_le_end`: the regular record and the reserved
RDV record of the fixtures. -/
theorem canonical_start_le_end_witness :
    dateLe (transformEvent sampleRaw "").startDate (transformEvent sampleRaw "").endDate = true
    ∧ dateLe (transformEvent rdvRaw "").startDate (transformEvent rdvRaw "").endDate = true :=
  ⟨canonical_start_le_end sampleRaw "" (by decide) (fun s h => by
      rw [show s = "" from by cases h] at h ⊢
      cases h),
   canonical_start_le_end rdvRaw "" (by decide) (fun s h => by
      rw [show s = "2025-03-01 10:00:00|2025-03-01 11:00:00" from (Option.some.inj h).symm]
      decide)⟩

/-! ## Claim linking the normalizer to the codec status -/

/-- **C10.**  A raw record whose `event_registered` field is the string
`'absent'` is normalized with `isRegistered = true`, so the exported
interchange document renders that event's status line as `STATUS:CONFIRMED`
and not `STATUS:TENTATIVE`. -/
theorem absent_renders_confirmed (raw : EpitechRawEvent) (pfx : String) (now : Int)
    (h : raw.event_registered = some "absent") :
    (transformEvent raw pfx).isRegistered = true
    ∧ ∀ ls, generateVEventLines now (transformEvent raw pfx) = .ok ls →
        "STATUS:CONFIRMED" ∈ ls ∧ "STATUS:TENTATIVE" ∉ ls := by
  have hreg : (transformEvent raw pfx).isRegistered = true := by
    show (raw.event_registered == some "registered" || raw.event_registered == some "present" ||
      raw.event_registered == some "absent" || raw.registered == true) = true
    rw [h]
    simp
  refine ⟨hreg, fun ls hls => ?_⟩
  unfold generateVEventLines at hls
  rcases hsd : (transformEvent raw pfx).startDate with _ | sd <;> rw [hsd] at hls
  · cases hls
  rcases hed : (transformEvent raw pfx).endDate with _ | ed <;> rw [hed] at hls
  · cases hls
  have hinj := Except.ok.inj hls
  subst hinj
  constructor
  · simp [hreg]
  · intro hmem
    simp only [List.mem_append, List.mem_cons, List.not_mem_nil, or_false, false_or,
      List.mem_ite_nil_right, List.mem_singleton] at hmem
    rcases hmem with (((h | h | h | h | h | h) | ⟨_, h⟩) | ⟨_, h⟩) | (h | h | h | h | h)
    · exact absurd h (by decide)
    · exact append_ne_of_not_prefix "UID:" _ _ (by decide) h.symm
    · exact append_ne_of_not_prefix "DTSTAMP:" _ _ (by decide) h.symm
    · exact append_ne_of_not_prefix "DTSTART;TZID=Europe/Paris:" _ _ (by decide) h.symm
    · exact append_ne_of_not_prefix "DTEND;TZID=Europe/Paris:" _ _ (by decide) h.symm
    · exact append_ne_of_not_prefix "SUMMARY:" _ _ (by decide) h.symm
    · exact append_ne_of_not_prefix "DESCRIPTION:" _ _ (by decide) h.symm
    · exact append_ne_of_not_prefix "LOCATION:" _ _ (by decide) h.symm
    · exact append_ne_of_not_prefix "CATEGORIES:EPITECH," _ _ (by decide) h.symm
    · rw [hreg] at h
      simp at h
    · exact absurd h (by decide)
    · exact absurd h (by decide)
    · exact absurd h (by decide)

/-- Witness for `absent_renders_confirmed` at a concrete record. -/
theorem absent_renders_confirmed_witness :
    (transformEvent { sampleRaw with event_registered := some "absent" } "").isRegistered = true
    ∧ ∀ ls, generateVEventLines 0
          (transformEvent { sampleRaw with event_registered := some "absent" } "") = .ok ls →
        "STATUS:CONFIRMED" ∈ ls ∧ "STATUS:TENTATIVE" ∉ ls :=
  absent_renders_confirmed { sampleRaw with event_registered := some "absent" } "" 0 rfl

/-! ## Claims about the ICS codec -/

instance {α β : Type} [DecidableEq α] [DecidableEq β] : DecidableEq (Except α β) := fun a b =>
  match a, b with
  | .ok x, .ok y => if h : x = y then .isTrue (by rw [h]) else .isFalse (by simp [h])
  | .error x, .error y => if h : x = y then .isTrue (by rw [h]) else .isFalse (by simp [h])
  | .ok _, .error _ => .isFalse (by simp)
  | .error _, .ok _ => .isFalse (by simp)

set_option maxRecDepth 4000 in
/-- **C7 (counterexample).**  `generateIcsContent` is *not* independent of when
it is called: the same singleton event list encoded at two different clock
readings yields different documents, because each `VEVENT` embeds a `DTSTAMP`
rendered from `new Date()`. -/
theorem encode_depends_on_clock :
    generateIcsContent 0 [sampleEvent] ≠ generateIcsContent 60 [sampleEvent] := by
  decide

/-- **C7 (amended).**  `encode` is pure and deterministic as a function of the
event list *and the wall clock*: the clock enters the output only through the
rendered `DTSTAMP` timestamp, so two calls with the same list whose clock
readings render to the same timestamp string (in particular, any two calls
within the same second) produce byte-identical documents. -/
theorem encode_deterministic_given_clock (n1 n2 : Int) (events : List EpitechEvent)
    (h : toIcsDateTime n1 = toIcsDateTime n2) :
    generateIcsContent n1 events = generateIcsContent n2 events := by
  have hv : ∀ ev, generateVEvent n1 ev = generateVEvent n2 ev := by
    intro ev
    unfold generateVEvent generateVEventLines
    rw [h]
  have hm : events.mapM (generateVEvent n1) = events.mapM (generateVEvent n2) := by
    induction events with
    | nil => rfl
    | cons e es ih => simp only [List.mapM_cons, hv, ih]
  unfold generateIcsContent
  rw [hm]

/-- Witness for `encode_deterministic_given_clock` at a concrete input. -/
theorem encode_deterministic_given_clock_witness :
    toIcsDateTime 1740823200 = toIcsDateTime 1740823200
    ∧ generateIcsContent 1740823200 [sampleEvent] = generateIcsContent 1740823200 [sampleEvent] :=
  ⟨rfl, encode_deterministic_given_clock 1740823200 1740823200 [sampleEvent] rfl⟩

/-- UTF-8 octet count of a character list. -/
def octets (l : List Char) : Nat := (l.map Char.utf8Size).sum

/-- **C8 (counterexample).**  The folding loop counts UTF-16 code units, not
octets: feeding `foldLine` a 76-character line of `é` (two octets each) emits a
first physical line of 75 characters, i.e. 150 octets — well over the claimed
75-octet bound. -/
theorem fold_line_exceeds_75_octets :
    75 < octets ((jsSplit "\r\n" (foldLine (String.mk (List.replicate 76 'é')))).headD "").data := by
  decide

/-- Shape of the continuation chunks, for any sufficient fuel. -/
theorem contChunksAux_spec (fuel : Nat) :
    ∀ rem : List Char, rem.length ≤ fuel →
      ∀ l ∈ contChunksAux rem fuel, ∃ c, l = ' ' :: c ∧ c.length ≤ 74 := by
  induction fuel with
  | zero =>
    intro rem hlen l hl
    rw [List.length_eq_zero.mp (Nat.le_zero.mp hlen)] at hl
    cases hl
  | succ fuel ih =>
    intro rem hlen l hl
    match rem with
    | [] => cases hl
    | c :: rest =>
      rcases List.mem_cons.mp hl with rfl | hl
      · exact ⟨(c :: rest).take 74, rfl, by
          simp only [List.length_take]
          exact Nat.min_le_left 74 (c :: rest).length⟩
      · exact ih ((c :: rest).drop 74)
          (by simp only [List.length_drop, List.length_cons] at hlen ⊢; omega) l hl

/-- Every continuation chunk is a single space plus at most 74 characters. -/
theorem contChunks_spec (rem : List Char) :
    ∀ l ∈ contChunks rem, ∃ c, l = ' ' :: c ∧ c.length ≤ 74 :=
  contChunksAux_spec rem.length rem le_rfl

/-- **C8 (amended).**  `foldLine` folds by *characters* (UTF-16 code units in
the source), not octets: every emitted physical line is at most 75 characters
before its CRLF terminator; a line of at most 75 characters is emitted
unchanged; a longer line has its first 75 characters emitted as-is and each
continuation chunk prefixed with a single space and limited to 74 characters,
chunks separated by CRLF. -/
theorem fold_line_bounds (s : String) :
    (∀ l ∈ foldParts s.data, l.length ≤ 75)
    ∧ (s.data.length ≤ 75 → foldLine s = s)
    ∧ (75 < s.data.length →
        foldParts s.data = s.data.take 75 :: contChunks (s.data.drop 75)
        ∧ ∀ l ∈ contChunks (s.data.drop 75), ∃ c, l = ' ' :: c ∧ c.length ≤ 74)
    ∧ foldLine s = "\r\n".intercalate ((foldParts s.data).map String.mk) := by
  refine ⟨?_, ?_, ?_, rfl⟩
  · intro l hl
    unfold foldParts at hl
    by_cases hc : s.data.length ≤ 75
    · rw [if_pos hc] at hl
      obtain rfl := List.mem_singleton.mp hl
      exact hc
    · rw [if_neg hc] at hl
      rcases List.mem_cons.mp hl with rfl | hl
      · simp only [List.length_take]
        exact le_trans (Nat.min_le_left 75 s.data.length) (le_refl 75)
      · obtain ⟨c, rfl, hcc⟩ := contChunks_spec _ l hl
        simp only [List.length_cons]
        omega
  · intro hle
    unfold foldLine foldParts
    rw [if_pos hle]
    rfl
  · intro hgt
    refine ⟨?_, contChunks_spec _⟩
    unfold foldParts
    rw [if_neg (by omega)]

/-- Witness for `fold_line_bounds`: a short line is emitted unchanged; a
100-character line is folded into its first 75 characters and chunks. -/
theorem fold_line_bounds_witness :
    ((String.mk (List.replicate 10 'a')).data.length ≤ 75
      ∧ foldLine (String.mk (List.replicate 10 'a')) = String.mk (List.replicate 10 'a'))
    ∧ (75 < (String.mk (List.replicate 100 'a')).data.length
      ∧ foldParts (String.mk (List.replicate 100 'a')).data
          = (String.mk (List.replicate 100 'a')).data.take 75
            :: contChunks ((String.mk (List.replicate 100 'a')).data.drop 75)) :=
  ⟨⟨by decide, (fold_line_bounds (String.mk (List.replicate 10 'a'))).2.1 (by decide)⟩,
   ⟨by decide, ((fold_line_bounds (String.mk (List.replicate 100 'a'))).2.2.1 (by decide)).1⟩⟩

/-! ## Reconciliation idempotence (C2)

The source's `Map` of tagged remote events keeps one entry per `epitechId`;
when the remote calendar holds two events with the same tag the shadowed one
escapes the deletion loop, which breaks idempotence (see the counterexample
below).  Under the data model's own invariant — at most one tagged remote
event per id — the second pass is exactly `created = 0, deleted = 0,
updated = |canonical|`, proved at the end of this section. -/

/-- The tags of a remote calendar state. -/
def calIds (cal : List GEvent) : List String := cal.map (fun g => g.epitechId)

theorem hasKey_iff (m : EventMap) (k : String) :
    hasKey m k = true ↔ k ∈ m.map (fun p => p.1) := by
  unfold hasKey
  rw [List.any_eq_true]
  constructor
  · rintro ⟨p, hp, h⟩
    exact (beq_iff_eq.mp h) ▸ List.mem_map_of_mem _ hp
  · rintro h
    obtain ⟨p, hp, rfl⟩ := List.mem_map.mp h
    exact ⟨p, hp, beq_self_eq_true _⟩

theorem keys_mapInsert (m : EventMap) (k' : String) (v : GEvent) :
    (mapInsert m k' v).map (fun p => p.1) = m.map (fun p => p.1) ++
      (if hasKey m k' then [] else [k']) := by
  unfold mapInsert hasKey
  by_cases h : m.any (fun p => p.1 == k') = true
  · rw [if_pos h, if_pos h]
    rw [List.map_map, List.append_nil]
    apply List.map_congr_left
    intro p _
    by_cases hp : p.1 = k'
    · simp [Function.comp, hp]
    · simp [Function.comp, hp]
  · rw [if_neg h, if_neg h]
    simp

theorem mem_keys_getExisting (cal : List GEvent) (k : String) :
    k ∈ (getExistingEvents cal).map (fun p => p.1) ↔ k ∈ calIds cal := by
  suffices h : ∀ m : EventMap, k ∈ (cal.foldl (fun m g => mapInsert m g.epitechId g) m).map
      (fun p => p.1) ↔ k ∈ m.map (fun p => p.1) ∨ k ∈ calIds cal by
    simpa [getExistingEvents, calIds] using h []
  induction cal with
  | nil => simp [calIds]
  | cons g rest ih =>
    intro m
    rw [List.foldl_cons, ih]
    rw [keys_mapInsert]
    by_cases h : hasKey m g.epitechId = true
    · rw [if_pos h]
      have hk := (hasKey_iff m g.epitechId).mp h
      simp only [List.append_nil, calIds, List.map_cons, List.mem_cons]
      constructor
      · rintro (hm | hr)
        · exact Or.inl hm
        · exact Or.inr (Or.inr hr)
      · rintro (hm | rfl | hr)
        · exact Or.inl hm
        · exact Or.inl hk
        · exact Or.inr hr
    · rw [if_neg h]
      simp only [List.mem_append, List.mem_singleton, calIds, List.map_cons, List.mem_cons]
      tauto

theorem hasKey_getExisting (cal : List GEvent) (k : String) :
    hasKey (getExistingEvents cal) k = true ↔ k ∈ calIds cal :=
  (hasKey_iff _ _).trans (mem_keys_getExisting cal k)

theorem mem_mapInsert (m : EventMap) (k' : String) (v : GEvent) (p : String × GEvent)
    (h : p ∈ mapInsert m k' v) : p ∈ m ∨ p = (k', v) := by
  unfold mapInsert at h
  split at h
  · obtain ⟨q, hq, hqe⟩ := List.mem_map.mp h
    by_cases hc : q.1 == k'
    · rw [if_pos hc] at hqe
      exact Or.inr hqe.symm
    · rw [if_neg hc] at hqe
      exact Or.inl (hqe ▸ hq)
  · rcases List.mem_append.mp h with hm | hs
    · exact Or.inl hm
    · exact Or.inr (List.mem_singleton.mp hs)

theorem mem_getExisting (cal : List GEvent) (p : String × GEvent)
    (h : p ∈ getExistingEvents cal) : p.2 ∈ cal ∧ p.2.epitechId = p.1 := by
  suffices hgen : ∀ (l : List GEvent) (m : EventMap), (∀ g ∈ l, g ∈ cal) →
      (∀ q ∈ m, q.2 ∈ cal ∧ q.2.epitechId = q.1) →
      ∀ q ∈ l.foldl (fun m g => mapInsert m g.epitechId g) m,
        q.2 ∈ cal ∧ q.2.epitechId = q.1 by
    exact hgen cal [] (fun g hg => hg) (fun q hq => absurd hq (List.not_mem_nil q)) p h
  intro l
  induction l with
  | nil => intro m _ hm q hq; exact hm q hq
  | cons g rest ih =>
    intro m hl hm q hq
    rw [List.foldl_cons] at hq
    refine ih _ (fun g' hg' => hl g' (List.mem_cons_of_mem g hg')) ?_ q hq
    intro q' hq'
    rcases mem_mapInsert _ _ _ _ hq' with hq' | rfl
    · exact hm q' hq'
    · exact ⟨hl g (List.mem_cons_self g rest), rfl⟩

/-- With pairwise-distinct tags, the listing map is just the association list
of the calendar in order. -/
theorem getExisting_of_nodup (cal : List GEvent) (hT : (calIds cal).Nodup) :
    getExistingEvents cal = cal.map (fun g => (g.epitechId, g)) := by
  suffices hgen : ∀ (l : List GEvent) (m : EventMap), (calIds l).Nodup →
      (∀ g ∈ l, hasKey m g.epitechId = false) →
      l.foldl (fun m g => mapInsert m g.epitechId g) m = m ++ l.map (fun g => (g.epitechId, g)) by
    simpa using hgen cal [] hT (fun g _ => rfl)
  intro l
  induction l with
  | nil => intro m _ _; simp
  | cons g rest ih =>
    intro m hnd hkeys
    obtain ⟨hg, hrest⟩ : g.epitechId ∉ calIds rest ∧ (calIds rest).Nodup := by
      simpa only [calIds, List.map_cons, List.nodup_cons] using hnd
    rw [List.foldl_cons]
    have hins : mapInsert m g.epitechId g = m ++ [(g.epitechId, g)] := by
      unfold mapInsert
      rw [show m.any (fun p => p.1 == g.epitechId) = false from
        hkeys g (List.mem_cons_self g rest)]
      simp
    rw [hins, ih (m ++ [(g.epitechId, g)]) hrest (by
        intro g' hg'
        have h1 : hasKey m g'.epitechId = false := hkeys g' (List.mem_cons_of_mem g hg')
        have h2 : g.epitechId ≠ g'.epitechId := by
          intro he
          exact hg (he ▸ List.mem_map_of_mem (fun g => g.epitechId) hg')
        unfold hasKey at h1 ⊢
        rw [List.any_append]
        rw [h1]
        simpa using h2)]
    simp

theorem lookupKey_mem (m : EventMap) (k : String) (g : GEvent)
    (h : lookupKey m k = some g) : (k, g) ∈ m := by
  unfold lookupKey at h
  obtain ⟨p, hp, rfl⟩ := Option.map_eq_some'.mp h
  have h1 := List.mem_of_find?_eq_some hp
  have h2 := List.find?_some (p := fun q : String × GEvent => q.1 == k) hp
  rw [← beq_iff_eq.mp h2]
  exact h1

theorem lookupKey_isSome_of_hasKey (m : EventMap) (k : String)
    (h : hasKey m k = true) : ∃ g, lookupKey m k = some g := by
  unfold hasKey at h
  obtain ⟨p, hp, hpk⟩ := List.any_eq_true.mp h
  have : (m.find? (fun p => p.1 == k)).isSome := List.find?_isSome.mpr ⟨p, hp, hpk⟩
  obtain ⟨q, hq⟩ := Option.isSome_iff_exists.mp this
  exact ⟨q.2, by unfold lookupKey; rw [hq]; rfl⟩

theorem lookupKey_spec (cal0 : List GEvent) (k : String) (g : GEvent)
    (h : lookupKey (getExistingEvents cal0) k = some g) : g ∈ cal0 ∧ g.epitechId = k := by
  have := mem_getExisting cal0 (k, g) (lookupKey_mem _ _ _ h)
  exact ⟨this.1, this.2⟩

/-- One-step unfolding of the create-or-update loop. -/
theorem createUpdate_cons (orc : RemoteOracle) (existing : EventMap) (st : ReconcileState)
    (ev : EpitechEvent) (rest : List EpitechEvent) :
    createUpdate orc existing st (ev :: rest)
      = createUpdate orc existing
          (match lookupKey existing ev.id with
           | some g =>
             match orc.updateFailure ev.id with
             | some msg => { st with errors := st.errors ++ ["Event " ++ ev.id ++ ": " ++ msg] }
             | none => { st with cal := updateBody st.cal g.gid ev, updated := st.updated + 1 }
           | none =>
             match orc.createFailure ev.id with
             | some msg => { st with errors := st.errors ++ ["Event " ++ ev.id ++ ": " ++ msg] }
             | none => { st with cal := st.cal ++ [⟨st.next, ev.id, ev⟩],
                                 next := st.next + 1, created := st.created + 1 }) rest := rfl

/-- One-step unfolding of the deletion loop. -/
theorem deletePhase_cons (orc : RemoteOracle) (processed : List String)
    (cal : List GEvent) (del : Nat) (errs : List String) (p : String × GEvent) (rest : EventMap) :
    deletePhase orc processed (cal, del, errs) (p :: rest)
      = deletePhase orc processed
          (if processed.contains p.1 then (cal, del, errs)
           else match orc.deleteFailure p.1 with
             | some msg => (cal, del, errs ++ ["Delete " ++ p.1 ++ ": " ++ msg])
             | none => (cal.filter (fun x => x.gid != p.2.gid), del + 1, errs)) rest := rfl

/-- With no failures and every canonical id present in the listing snapshot,
the create-or-update loop performs only updates: one per event, no creates, no
errors. -/
theorem createUpdate_all_updates (existing : EventMap) :
    ∀ (es : List EpitechEvent) (st : ReconcileState),
      (∀ ev ∈ es, hasKey existing ev.id = true) →
      (createUpdate noFailures existing st es).created = st.created
      ∧ (createUpdate noFailures existing st es).updated = st.updated + es.length
      ∧ (createUpdate noFailures existing st es).errors = st.errors := by
  intro es
  induction es with
  | nil => intro st _; exact ⟨rfl, rfl, rfl⟩
  | cons ev rest ih =>
    intro st hall
    obtain ⟨g, hg⟩ := lookupKey_isSome_of_hasKey existing ev.id
      (hall ev (List.mem_cons_self ev rest))
    rw [createUpdate_cons]
    rw [hg]
    have := ih { st with cal := updateBody st.cal g.gid ev, updated := st.updated + 1 }
      (fun ev' hev' => hall ev' (List.mem_cons_of_mem ev hev'))
    exact ⟨this.1, this.2.1.trans (by simp only [List.length_cons]; omega), this.2.2⟩

/-- With no failures, the create-or-update loop never records an error. -/
theorem createUpdate_no_errors (existing : EventMap) :
    ∀ (es : List EpitechEvent) (st : ReconcileState),
      (createUpdate noFailures existing st es).errors = st.errors := by
  intro es
  induction es with
  | nil => intro st; rfl
  | cons ev rest ih =>
    intro st
    rw [createUpdate_cons]
    rcases hg : lookupKey existing ev.id with _ | g <;> exact ih _

/-- The deletion loop is the identity when every listed key was processed. -/
theorem deletePhase_skip_all (orc : RemoteOracle) (processed : List String) :
    ∀ (m : EventMap) (acc : List GEvent × Nat × List String),
      (∀ p ∈ m, processed.contains p.1 = true) →
      deletePhase orc processed acc m = acc := by
  intro m
  induction m with
  | nil => intro acc _; rfl
  | cons p rest ih =>
    intro acc hall
    obtain ⟨cal, del, errs⟩ := acc
    rw [deletePhase_cons]
    rw [if_pos (hall p (List.mem_cons_self p rest))]
    exact ih _ (fun q hq => hall q (List.mem_cons_of_mem p hq))

/-- With no failures, the deletion loop leaves the error list alone. -/
theorem deletePhase_no_errors (processed : List String) :
    ∀ (m : EventMap) (acc : List GEvent × Nat × List String),
      (deletePhase noFailures processed acc m).2.2 = acc.2.2 := by
  intro m
  induction m with
  | nil => intro acc; rfl
  | cons p rest ih =>
    intro acc
    obtain ⟨cal, del, errs⟩ := acc
    rw [deletePhase_cons]
    by_cases hc : processed.contains p.1 = true
    · rw [if_pos hc]
      exact ih _
    · rw [if_neg hc]
      exact ih _

/-- Membership in the state left by the deletion loop: an event survives iff
it was there before and its remote id is not targeted by any unprocessed
listing entry. -/
theorem deletePhase_mem (processed : List String) :
    ∀ (m : EventMap) (cal : List GEvent) (del : Nat) (errs : List String) (x : GEvent),
      x ∈ (deletePhase noFailures processed (cal, del, errs) m).1 ↔
        x ∈ cal ∧ ∀ p ∈ m, processed.contains p.1 = false → x.gid ≠ p.2.gid := by
  intro m
  induction m with
  | nil =>
    intro cal del errs x
    rw [show deletePhase noFailures processed (cal, del, errs) [] = (cal, del, errs) from rfl]
    simp
  | cons p rest ih =>
    intro cal del errs x
    rw [deletePhase_cons]
    by_cases hc : processed.contains p.1 = true
    · rw [if_pos hc]
      rw [ih]
      constructor
      · rintro ⟨hx, hrest⟩
        refine ⟨hx, fun q hq hqc => ?_⟩
        rcases List.mem_cons.mp hq with rfl | hq
        · rw [hc] at hqc; cases hqc
        · exact hrest q hq hqc
      · rintro ⟨hx, hall⟩
        exact ⟨hx, fun q hq hqc => hall q (List.mem_cons_of_mem p hq) hqc⟩
    · have hcf : processed.contains p.1 = false := by rwa [Bool.not_eq_true] at hc
      rw [if_neg hc]
      rw [show (match noFailures.deleteFailure p.1 with
            | some msg => (cal, del, errs ++ ["Delete " ++ p.1 ++ ": " ++ msg])
            | none => (cal.filter (fun x => x.gid != p.2.gid), del + 1, errs))
          = (cal.filter (fun x => x.gid != p.2.gid), del + 1, errs) from rfl]
      rw [ih]
      rw [List.mem_filter]
      constructor
      · rintro ⟨⟨hx, hne⟩, hrest⟩
        refine ⟨hx, fun q hq hqc => ?_⟩
        rcases List.mem_cons.mp hq with rfl | hq
        · exact bne_iff_ne.mp hne
        · exact hrest q hq hqc
      · rintro ⟨hx, hall⟩
        exact ⟨⟨hx, bne_iff_ne.mpr (hall p (List.mem_cons_self p rest) hcf)⟩,
          fun q hq hqc => hall q (List.mem_cons_of_mem p hq) hqc⟩

/-- Remote event ids are unique in a well-formed calendar: two remote events
with the same `gid` are the same event. -/
theorem gid_inj (cal0 : List GEvent) (hG : (cal0.map (fun g => g.gid)).Nodup)
    {y g : GEvent} (hy : y ∈ cal0) (hg : g ∈ cal0) (h : y.gid = g.gid) : y = g :=
  List.inj_on_of_nodup_map hG hy hg h

/-- Every remote event the listing snapshot can return predates the fresh-id
counter. -/
theorem lookup_gid_lt (cal0 : List GEvent) (n : Nat) (hN : ∀ g ∈ cal0, g.gid < n) :
    ∀ (k : String) (g : GEvent), lookupKey (getExistingEvents cal0) k = some g → g.gid < n :=
  fun k g h => hN g (lookupKey_spec cal0 k g h).1

/-- Membership in the calendar after a full-overwrite `PUT` at `gid`. -/
theorem mem_updateBody (cal : List GEvent) (gid : Nat) (ev : EpitechEvent) (x : GEvent) :
    x ∈ updateBody cal gid ev ↔
      ∃ x0 ∈ cal, (x0.gid = gid ∧ x = ⟨x0.gid, ev.id, ev⟩) ∨ (x0.gid ≠ gid ∧ x = x0) := by
  unfold updateBody
  rw [List.mem_map]
  constructor
  · rintro ⟨x0, hx0, rfl⟩
    by_cases h : x0.gid = gid
    · refine ⟨x0, hx0, Or.inl ⟨h, ?_⟩⟩
      show (if (x0.gid == gid) = true then
        ({ gid := x0.gid, epitechId := ev.id, body := ev } : GEvent) else x0) = _
      rw [if_pos (beq_iff_eq.mpr h)]
    · refine ⟨x0, hx0, Or.inr ⟨h, ?_⟩⟩
      show (if (x0.gid == gid) = true then
        ({ gid := x0.gid, epitechId := ev.id, body := ev } : GEvent) else x0) = _
      rw [if_neg (by simp only [beq_iff_eq]; exact h)]
  · rintro ⟨x0, hx0, (⟨h, rfl⟩ | ⟨h, rfl⟩)⟩
    · refine ⟨x0, hx0, ?_⟩
      show (if (x0.gid == gid) = true then
        ({ gid := x0.gid, epitechId := ev.id, body := ev } : GEvent) else x0) = _
      rw [if_pos (beq_iff_eq.mpr h)]
    · refine ⟨x, hx0, ?_⟩
      show (if (x.gid == gid) = true then
        ({ gid := x.gid, epitechId := ev.id, body := ev } : GEvent) else x) = _
      rw [if_neg (by simp only [beq_iff_eq]; exact h)]

/-- An event created by this pass (its `gid` is at or above the fresh-id
counter floor `n`) survives the rest of the create-or-update loop untouched:
updates only ever target `gid`s the listing snapshot knows, all below `n`. -/
theorem createUpdate_stable (existing : EventMap) (n : Nat)
    (hLow : ∀ (k : String) (g : GEvent), lookupKey existing k = some g → g.gid < n) :
    ∀ (es : List EpitechEvent) (st : ReconcileState) (i : String),
      (∃ x ∈ st.cal, x.epitechId = i ∧ n ≤ x.gid) →
      ∃ x ∈ (createUpdate noFailures existing st es).cal, x.epitechId = i ∧ n ≤ x.gid := by
  intro es
  induction es with
  | nil => intro st i h; exact h
  | cons ev rest ih =>
    intro st i h
    rw [createUpdate_cons]
    obtain ⟨x, hx, hxi, hxn⟩ := h
    rcases hg : lookupKey existing ev.id with _ | g
    · exact ih _ i ⟨x, List.mem_append_left _ hx, hxi, hxn⟩
    · apply ih _ i
      refine ⟨x, ?_, hxi, hxn⟩
      apply (mem_updateBody st.cal g.gid ev x).mpr
      refine ⟨x, hx, Or.inr ⟨?_, rfl⟩⟩
      have := hLow ev.id g hg
      omega

/-- Invariants of the create-or-update loop for a well-formed remote calendar
(`allowed` will be instantiated with the canonical id list):
after the loop, (1) every original remote `gid` is still present and carries
its original tag, (2) every remote event is either tagged with an allowed id
or is an untouched original, and (3) every processed canonical event has a
tagged remote event that the deletion loop cannot remove. -/
theorem createUpdate_run1 (cal0 : List GEvent) (n : Nat) (allowed : List String)
    (hG : (cal0.map (fun g => g.gid)).Nodup)
    (hN : ∀ g ∈ cal0, g.gid < n) :
    ∀ (es : List EpitechEvent) (st : ReconcileState),
      (∀ ev ∈ es, ev.id ∈ allowed) →
      (∀ y ∈ cal0, ∃ x ∈ st.cal, x.gid = y.gid ∧ x.epitechId = y.epitechId) →
      n ≤ st.next →
      (∀ x ∈ st.cal, x.epitechId ∈ allowed ∨ ∃ y ∈ cal0, y.gid = x.gid ∧ y.epitechId = x.epitechId) →
      (∀ y ∈ cal0, ∃ x ∈ (createUpdate noFailures (getExistingEvents cal0) st es).cal,
          x.gid = y.gid ∧ x.epitechId = y.epitechId)
      ∧ (∀ x ∈ (createUpdate noFailures (getExistingEvents cal0) st es).cal,
          x.epitechId ∈ allowed ∨ ∃ y ∈ cal0, y.gid = x.gid ∧ y.epitechId = x.epitechId)
      ∧ (∀ ev ∈ es, ∃ x ∈ (createUpdate noFailures (getExistingEvents cal0) st es).cal,
          x.epitechId = ev.id ∧ (n ≤ x.gid ∨ ∃ y ∈ cal0, y.gid = x.gid ∧ y.epitechId = ev.id)) := by
  intro es
  induction es with
  | nil =>
    intro st _ hK _ hA
    exact ⟨hK, hA, fun ev hev => absurd hev (List.not_mem_nil ev)⟩
  | cons ev rest ih =>
    intro st hEs hK hn hA
    have hevAllowed : ev.id ∈ allowed := hEs ev (List.mem_cons_self ev rest)
    have hEs' : ∀ ev' ∈ rest, ev'.id ∈ allowed :=
      fun ev' h => hEs ev' (List.mem_cons_of_mem ev h)
    rw [createUpdate_cons]
    rcases hg : lookupKey (getExistingEvents cal0) ev.id with _ | g
    · -- create branch
      have hK' : ∀ y ∈ cal0, ∃ x ∈ st.cal ++ [⟨st.next, ev.id, ev⟩],
          x.gid = y.gid ∧ x.epitechId = y.epitechId := by
        intro y hy
        obtain ⟨x, hx, h1, h2⟩ := hK y hy
        exact ⟨x, List.mem_append_left _ hx, h1, h2⟩
      have hA' : ∀ x ∈ st.cal ++ [⟨st.next, ev.id, ev⟩],
          x.epitechId ∈ allowed ∨ ∃ y ∈ cal0, y.gid = x.gid ∧ y.epitechId = x.epitechId := by
        intro x hx
        rcases List.mem_append.mp hx with hx | hx
        · exact hA x hx
        · obtain rfl := List.mem_singleton.mp hx
          exact Or.inl hevAllowed
      obtain ⟨rK, rA, rb⟩ := ih { st with cal := st.cal ++ [⟨st.next, ev.id, ev⟩], next := st.next + 1, created := st.created + 1 } hEs' hK' (by show n ≤ st.next + 1; omega) hA'
      refine ⟨rK, rA, ?_⟩
      intro ev' hev'
      rcases List.mem_cons.mp hev' with rfl | hev'
      · have hstab := createUpdate_stable (getExistingEvents cal0) n
          (lookup_gid_lt cal0 n hN) rest
          { st with cal := st.cal ++ [⟨st.next, ev'.id, ev'⟩], next := st.next + 1, created := st.created + 1 }
          ev'.id
          ⟨⟨st.next, ev'.id, ev'⟩,
            List.mem_append_right _ (List.mem_singleton.mpr rfl), rfl, hn⟩
        obtain ⟨x, hx, h1, h2⟩ := hstab
        exact ⟨x, hx, h1, Or.inl h2⟩
      · exact rb ev' hev'
    · -- update branch
      obtain ⟨hgmem, hgtag⟩ := lookupKey_spec cal0 ev.id g hg
      have hK' : ∀ y ∈ cal0, ∃ x ∈ updateBody st.cal g.gid ev,
          x.gid = y.gid ∧ x.epitechId = y.epitechId := by
        intro y hy
        obtain ⟨x, hx, h1, h2⟩ := hK y hy
        by_cases hgid : x.gid = g.gid
        · refine ⟨⟨x.gid, ev.id, ev⟩,
            (mem_updateBody st.cal g.gid ev _).mpr ⟨x, hx, Or.inl ⟨hgid, rfl⟩⟩, h1, ?_⟩
        --  tag: ev.id = y.epitechId, via y = g
          have hyg : y = g := gid_inj cal0 hG hy hgmem (by omega)
          rw [hyg]
          exact hgtag.symm
        · exact ⟨x, (mem_updateBody st.cal g.gid ev _).mpr ⟨x, hx, Or.inr ⟨hgid, rfl⟩⟩, h1, h2⟩
      have hA' : ∀ x ∈ updateBody st.cal g.gid ev,
          x.epitechId ∈ allowed ∨ ∃ y ∈ cal0, y.gid = x.gid ∧ y.epitechId = x.epitechId := by
        intro x hx
        obtain ⟨x0, hx0, (⟨h, rfl⟩ | ⟨h, rfl⟩)⟩ := (mem_updateBody st.cal g.gid ev x).mp hx
        · exact Or.inl hevAllowed
        · exact hA x hx0
      obtain ⟨rK, rA, rb⟩ := ih { st with cal := updateBody st.cal g.gid ev, updated := st.updated + 1 } hEs' hK' hn hA'
      refine ⟨rK, rA, ?_⟩
      intro ev' hev'
      rcases List.mem_cons.mp hev' with rfl | hev'
      · obtain ⟨x, hx, h1, h2⟩ := rK g hgmem
        have hgtag' : g.epitechId = ev'.id := hgtag
        exact ⟨x, hx, h2.trans hgtag', Or.inr ⟨g, hgmem, h1.symm, hgtag'⟩⟩
      · exact rb ev' hev'

theorem contains_iff_mem (l : List String) (a : String) : l.contains a = true ↔ a ∈ l :=
  List.elem_iff

theorem contains_eq_false_iff (l : List String) (a : String) : l.contains a = false ↔ a ∉ l := by
  rw [← Bool.not_eq_true]
  exact not_congr (contains_iff_mem l a)

/-- After one failure-free pass over a well-formed remote calendar (distinct
tags, distinct remote ids all below the fresh-id counter), the tagged remote
set coincides, as a set of ids, with the canonical id set — and the pass
reports no error. -/
theorem run1_postcondition (cal0 : List GEvent) (n : Nat) (es : List EpitechEvent)
    (hT : (calIds cal0).Nodup)
    (hG : (cal0.map (fun g => g.gid)).Nodup)
    (hN : ∀ g ∈ cal0, g.gid < n) :
    (∀ ev ∈ es, ev.id ∈ calIds (syncToGoogleCalendar noFailures cal0 n es).2.1)
    ∧ (∀ t ∈ calIds (syncToGoogleCalendar noFailures cal0 n es).2.1, t ∈ es.map (fun ev => ev.id))
    ∧ (syncToGoogleCalendar noFailures cal0 n es).1.errors = [] := by
  have hcal2 : (syncToGoogleCalendar noFailures cal0 n es).2.1
      = (deletePhase noFailures (es.map (fun ev => ev.id))
          ((createUpdate noFailures (getExistingEvents cal0) ⟨cal0, n, 0, 0, []⟩ es).cal, 0,
           (createUpdate noFailures (getExistingEvents cal0) ⟨cal0, n, 0, 0, []⟩ es).errors)
          (getExistingEvents cal0)).1 := rfl
  have herrs : (syncToGoogleCalendar noFailures cal0 n es).1.errors
      = (deletePhase noFailures (es.map (fun ev => ev.id))
          ((createUpdate noFailures (getExistingEvents cal0) ⟨cal0, n, 0, 0, []⟩ es).cal, 0,
           (createUpdate noFailures (getExistingEvents cal0) ⟨cal0, n, 0, 0, []⟩ es).errors)
          (getExistingEvents cal0)).2.2 := rfl
  obtain ⟨rK, rA, rb⟩ := createUpdate_run1 cal0 n (es.map (fun ev => ev.id)) hG hN es
    ⟨cal0, n, 0, 0, []⟩
    (fun ev hev => List.mem_map_of_mem _ hev)
    (fun y hy => ⟨y, hy, rfl, rfl⟩)
    le_rfl
    (fun x hx => Or.inr ⟨x, hx, rfl, rfl⟩)
  refine ⟨?_, ?_, ?_⟩
  · intro ev hev
    obtain ⟨x, hx, hxid, hgood⟩ := rb ev hev
    rw [hcal2]
    have hx2 : x ∈ (deletePhase noFailures (es.map (fun ev => ev.id))
        ((createUpdate noFailures (getExistingEvents cal0) ⟨cal0, n, 0, 0, []⟩ es).cal, 0,
         (createUpdate noFailures (getExistingEvents cal0) ⟨cal0, n, 0, 0, []⟩ es).errors)
        (getExistingEvents cal0)).1 := by
      apply (deletePhase_mem _ _ _ _ _ x).mpr
      refine ⟨hx, ?_⟩
      intro p hp hpc
      obtain ⟨hpmem, hptag⟩ := mem_getExisting cal0 p hp
      have hpnot : p.1 ∉ es.map (fun ev => ev.id) := (contains_eq_false_iff _ _).mp hpc
      rcases hgood with hfresh | ⟨y, hy, hygid, hytag⟩
      · have := hN p.2 hpmem
        omega
      · intro heq
        have hyp : y = p.2 := gid_inj cal0 hG hy hpmem (by omega)
        apply hpnot
        rw [← hptag, ← hyp, hytag]
        exact List.mem_map_of_mem _ hev
    rw [← hxid]
    exact List.mem_map_of_mem _ hx2
  · intro t ht
    rw [hcal2] at ht
    obtain ⟨x, hx2, rfl⟩ := List.mem_map.mp ht
    obtain ⟨hxp1, hcond⟩ := (deletePhase_mem _ _ _ _ _ x).mp hx2
    rcases rA x hxp1 with hmem | ⟨y, hy, hygid, hytag⟩
    · exact hmem
    · by_contra hnot
      have hentry : (y.epitechId, y) ∈ getExistingEvents cal0 := by
        rw [getExisting_of_nodup cal0 hT]
        exact List.mem_map_of_mem _ hy
      have hcf : (es.map (fun ev => ev.id)).contains y.epitechId = false := by
        apply (contains_eq_false_iff _ _).mpr
        rw [hytag]
        exact hnot
      exact hcond (y.epitechId, y) hentry hcf hygid.symm
  · rw [herrs, deletePhase_no_errors]
    exact createUpdate_no_errors (getExistingEvents cal0) es ⟨cal0, n, 0, 0, []⟩

/-- When every canonical id is already mirrored and every mirrored tag is
canonical, a failure-free pass performs only updates: `created = 0`,
`updated = |es|`, `deleted = 0`, no errors. -/
theorem reconcile_second_pass (cal : List GEvent) (n : Nat) (es : List EpitechEvent)
    (h1 : ∀ ev ∈ es, ev.id ∈ calIds cal)
    (h2 : ∀ t ∈ calIds cal, t ∈ es.map (fun ev => ev.id)) :
    (syncToGoogleCalendar noFailures cal n es).1
      = { created := 0, updated := es.length, deleted := 0, errors := [] } := by
  have hhk : ∀ ev ∈ es, hasKey (getExistingEvents cal) ev.id = true :=
    fun ev hev => (hasKey_getExisting cal ev.id).mpr (h1 ev hev)
  obtain ⟨hc, hu, he⟩ := createUpdate_all_updates (getExistingEvents cal) es ⟨cal, n, 0, 0, []⟩ hhk
  have hskip : deletePhase noFailures (es.map (fun ev => ev.id))
      ((createUpdate noFailures (getExistingEvents cal) ⟨cal, n, 0, 0, []⟩ es).cal, 0,
       (createUpdate noFailures (getExistingEvents cal) ⟨cal, n, 0, 0, []⟩ es).errors)
      (getExistingEvents cal)
      = ((createUpdate noFailures (getExistingEvents cal) ⟨cal, n, 0, 0, []⟩ es).cal, 0,
         (createUpdate noFailures (getExistingEvents cal) ⟨cal, n, 0, 0, []⟩ es).errors) := by
    apply deletePhase_skip_all
    intro p hp
    obtain ⟨hpmem, hptag⟩ := mem_getExisting cal p hp
    apply (contains_iff_mem _ _).mpr
    apply h2
    rw [← hptag]
    exact List.mem_map_of_mem _ hpmem
  have hres : (syncToGoogleCalendar noFailures cal n es).1
      = { created := (createUpdate noFailures (getExistingEvents cal) ⟨cal, n, 0, 0, []⟩ es).created,
          updated := (createUpdate noFailures (getExistingEvents cal) ⟨cal, n, 0, 0, []⟩ es).updated,
          deleted := (deletePhase noFailures (es.map (fun ev => ev.id))
            ((createUpdate noFailures (getExistingEvents cal) ⟨cal, n, 0, 0, []⟩ es).cal, 0,
             (createUpdate noFailures (getExistingEvents cal) ⟨cal, n, 0, 0, []⟩ es).errors)
            (getExistingEvents cal)).2.1,
          errors := (deletePhase noFailures (es.map (fun ev => ev.id))
            ((createUpdate noFailures (getExistingEvents cal) ⟨cal, n, 0, 0, []⟩ es).cal, 0,
             (createUpdate noFailures (getExistingEvents cal) ⟨cal, n, 0, 0, []⟩ es).errors)
            (getExistingEvents cal)).2.2 } := rfl
  rw [hres, hskip, hc, hu, he]
  simp

/-- **C2 (counterexample).**  Idempotence fails on a remote calendar holding
two events tagged with the same id: the listing map keeps only the later one,
so the first (successful, failure-free) pass with an unchanged — here empty —
canonical set deletes one of them, and the second pass deletes the other:
its `deleted` count is 1, not the claimed 0. -/
theorem reconcile_not_idempotent :
    (syncToGoogleCalendar noFailures [⟨1, "X", sampleEvent⟩, ⟨2, "X", sampleEvent⟩] 3 []).1
      = { created := 0, updated := 0, deleted := 1, errors := [] }
    ∧ (syncToGoogleCalendar noFailures
        (syncToGoogleCalendar noFailures [⟨1, "X", sampleEvent⟩, ⟨2, "X", sampleEvent⟩] 3 []).2.1
        (syncToGoogleCalendar noFailures [⟨1, "X", sampleEvent⟩, ⟨2, "X", sampleEvent⟩] 3 []).2.2
        []).1.deleted = 1 :=
  ⟨rfl, rfl⟩

/-- **C2 (amended).**  For every canonical event list, if the remote calendar
before the first run is well formed — at most one tagged remote event per id
(the data model's own zero-or-one invariant), and, in the model, distinct
remote event ids all below the fresh-id counter — then a successful first
reconciliation reports no error, and a second reconciliation against the state
it produced, with the canonical set unchanged and no remote operation failing,
yields `created = 0, deleted = 0` and `updated` equal to the full size of the
canonical list. -/
theorem reconcile_idempotent (es : List EpitechEvent) (cal0 : List GEvent) (n : Nat)
    (hT : (calIds cal0).Nodup)
    (hG : (cal0.map (fun g => g.gid)).Nodup)
    (hN : ∀ g ∈ cal0, g.gid < n) :
    (syncToGoogleCalendar noFailures cal0 n es).1.errors = []
    ∧ (syncToGoogleCalendar noFailures
        (syncToGoogleCalendar noFailures cal0 n es).2.1
        (syncToGoogleCalendar noFailures cal0 n es).2.2 es).1
      = { created := 0, updated := es.length, deleted := 0, errors := [] } := by
  obtain ⟨h1, h2, herr⟩ := run1_postcondition cal0 n es hT hG hN
  exact ⟨herr, reconcile_second_pass _ _ es h1 h2⟩

/-- Witness for `reconcile_idempotent` at a concrete scenario: remote `{A}`,
canonical `{A, Z}`. -/
theorem reconcile_idempotent_witness :
    (calIds [⟨1, "A", sampleEvent⟩]).Nodup
    ∧ (([⟨1, "A", sampleEvent⟩] : List GEvent).map (fun g => g.gid)).Nodup
    ∧ (∀ g ∈ ([⟨1, "A", sampleEvent⟩] : List GEvent), g.gid < 2)
    ∧ ((syncToGoogleCalendar noFailures [⟨1, "A", sampleEvent⟩] 2
          [withId "A" sampleEvent, withId "Z" sampleEvent]).1.errors = []
      ∧ (syncToGoogleCalendar noFailures
          (syncToGoogleCalendar noFailures [⟨1, "A", sampleEvent⟩] 2
            [withId "A" sampleEvent, withId "Z" sampleEvent]).2.1
          (syncToGoogleCalendar noFailures [⟨1, "A", sampleEvent⟩] 2
            [withId "A" sampleEvent, withId "Z" sampleEvent]).2.2
          [withId "A" sampleEvent, withId "Z" sampleEvent]).1
        = { created := 0, updated := 2, deleted := 0, errors := [] }) :=
  ⟨by decide, by decide, by decide,
   reconcile_idempotent [withId "A" sampleEvent, withId "Z" sampleEvent]
     [⟨1, "A", sampleEvent⟩] 2 (by decide) (by decide) (by decide)⟩

end EpitechSync
